import Mathlib

/-!
Shallow embedding of the mailgun-mcp-server translation layer
(src/mailgun-mcp.js) in Lean 4, together with theorems settling the
frozen claims about it.

JavaScript strings are modelled as Lean `String` / `List Char`;
JavaScript runtime values flowing through the parameter pipeline as
`JValue`; parsed YAML/JSON documents as `JSON`; Zod validators as the
inductive `Zod` capturing exactly the shapes the code constructs.
JavaScript exceptions are modelled with `Except String`.
-/

namespace Mailgun

/-! ## ASCII character utilities -/

/-- ASCII uppercase letter. -/
def isAsciiUpper (c : Char) : Bool := 65 ≤ c.toNat && c.toNat ≤ 90

/-- ASCII lowercase letter. -/
def isAsciiLower (c : Char) : Bool := 97 ≤ c.toNat && c.toNat ≤ 122

/-- ASCII digit. -/
def isAsciiDigit (c : Char) : Bool := 48 ≤ c.toNat && c.toNat ≤ 57

/-- ASCII letter or digit. -/
def isAsciiAlnum (c : Char) : Bool := isAsciiUpper c || isAsciiLower c || isAsciiDigit c

/-- JavaScript regex word character `\w`, i.e. `[A-Za-z0-9_]`. -/
def isWordChar (c : Char) : Bool := isAsciiAlnum c || c = '_'

/-- ASCII lower-casing of one character (`String.prototype.toLowerCase`
restricted to ASCII; every character this development lower-cases is
ASCII because it has survived a `\w`-based replacement). -/
def toLowerAscii (c : Char) : Char :=
  if isAsciiUpper c then Char.ofNat (c.toNat + 32) else c

/-- ASCII upper-casing of one character (`String.prototype.toUpperCase`
restricted to ASCII; HTTP verbs are ASCII). -/
def toUpperAscii (c : Char) : Char :=
  if isAsciiLower c then Char.ofNat (c.toNat - 32) else c

/-- `method.toUpperCase()` on an HTTP verb string. -/
def jsToUpper (s : String) : String := String.mk (s.data.map toUpperAscii)

/-- `s.toLowerCase()` on an ASCII string. -/
def jsToLower (s : String) : String := String.mk (s.data.map toLowerAscii)

/-! ## List-of-characters string primitives -/

/-- First-occurrence string replacement, the semantics of JavaScript
`String.prototype.replace(pattern, replacement)` with a plain-string
pattern (and a replacement containing no `$` patterns): only the first
occurrence, scanning from the left, is replaced; with an empty pattern
the replacement is prepended. -/
def replaceFirstL (pat rep : List Char) : List Char → List Char
  | [] => if pat.isPrefixOf ([] : List Char) then rep else []
  | c :: rest =>
    if pat.isPrefixOf (c :: rest) then rep ++ (c :: rest).drop pat.length
    else c :: replaceFirstL pat rep rest

/-- String-level wrapper for `replaceFirstL`. -/
def replaceFirstS (s pat rep : String) : String :=
  String.mk (replaceFirstL pat.data rep.data s.data)

/-- `String.prototype.split('/')` : split on a single character,
keeping empty fragments (JavaScript semantics). -/
def splitOnCharL (sep : Char) : List Char → List (List Char)
  | [] => [[]]
  | c :: rest =>
    let r := splitOnCharL sep rest
    if c = sep then [] :: r
    else
      match r with
      | [] => [[c]]
      | hd :: tl => (c :: hd) :: tl

/-- Split a string on a separator character (JavaScript `split`). -/
def splitOnChar (sep : Char) (s : String) : List String :=
  (splitOnCharL sep s.data).map String.mk

/-- Collapse every run of `-` characters into a single `-`
(the global regex replacement of `-+` by `-`). -/
def collapseHyphens : List Char → List Char
  | [] => []
  | '-' :: rest =>
    match collapseHyphens rest with
    | '-' :: tl => '-' :: tl
    | r => '-' :: r
  | c :: rest => c :: collapseHyphens rest

/-! ## Percent encoding -/

/-- Upper-case hexadecimal digit for a value < 16. -/
def hexDigit (n : Nat) : Char :=
  match n with
  | 0 => '0' | 1 => '1' | 2 => '2' | 3 => '3' | 4 => '4'
  | 5 => '5' | 6 => '6' | 7 => '7' | 8 => '8' | 9 => '9'
  | 10 => 'A' | 11 => 'B' | 12 => 'C' | 13 => 'D' | 14 => 'E' | 15 => 'F'
  | _ => '0'

/-- `%XY` encoding of one byte. -/
def percentByte (b : Nat) : List Char := ['%', hexDigit (b / 16), hexDigit (b % 16)]

/-- UTF-8 bytes of a unicode scalar value. -/
def utf8Bytes (c : Char) : List Nat :=
  let n := c.toNat
  if n < 0x80 then [n]
  else if n < 0x800 then [0xC0 + n / 0x40, 0x80 + n % 0x40]
  else if n < 0x10000 then
    [0xE0 + n / 0x1000, 0x80 + n / 0x40 % 0x40, 0x80 + n % 0x40]
  else
    [0xF0 + n / 0x40000, 0x80 + n / 0x1000 % 0x40, 0x80 + n / 0x40 % 0x40, 0x80 + n % 0x40]

/-- Characters `encodeURIComponent` leaves unescaped:
`A–Z a–z 0–9 - _ . ! ~ * ' ( )`. -/
def isUriUnreserved (c : Char) : Bool :=
  isAsciiAlnum c || c = '-' || c = '_' || c = '.' || c = '!' || c = '~' ||
    c = '*' || c = '\'' || c = '(' || c = ')'

/-- `encodeURIComponent` on a list of characters. -/
def encodeURIComponentL (cs : List Char) : List Char :=
  cs.flatMap fun c =>
    if isUriUnreserved c then [c] else (utf8Bytes c).flatMap percentByte

/-- `encodeURIComponent` on a string. -/
def encodeURIComponent (s : String) : String := String.mk (encodeURIComponentL s.data)

/-- Characters the `URLSearchParams` serializer
(`application/x-www-form-urlencoded`) leaves unescaped: `A–Z a–z 0–9 * - . _`.
A space becomes `+`; everything else is percent-encoded. -/
def isFormSafe (c : Char) : Bool :=
  isAsciiAlnum c || c = '*' || c = '-' || c = '.' || c = '_'

/-- `application/x-www-form-urlencoded` serialization of one string. -/
def formEncode (s : String) : String :=
  String.mk <| s.data.flatMap fun c =>
    if isFormSafe c then [c]
    else if c = ' ' then ['+']
    else (utf8Bytes c).flatMap percentByte

/-! ## JavaScript runtime values -/

/-- JavaScript values flowing through the parameter pipeline: argument
values of a tool invocation. Numbers are modelled as integers (no claim
depends on non-integral numbers). -/
inductive JValue where
  | vStr (s : String)
  | vNum (n : Int)
  | vBool (b : Bool)
  | vNull
  | vUndefined
  | vArr (xs : List JValue)

/-- JavaScript truthiness of a `JValue` (`''`, `0`, `false`, `null`,
`undefined` are falsy; arrays are objects, hence truthy). -/
def truthy : JValue → Bool
  | .vStr s => !s.isEmpty
  | .vNum n => n ≠ 0
  | .vBool b => b
  | .vNull => false
  | .vUndefined => false
  | .vArr _ => true

mutual

/-- `value.toString()` / `String(value)` as used by the pipeline
(array elements are joined by commas, as JavaScript `Array.prototype.toString`). -/
def jsToString : JValue → String
  | .vStr s => s
  | .vNum n => toString n
  | .vBool b => if b then "true" else "false"
  | .vNull => "null"
  | .vUndefined => "undefined"
  | .vArr xs => jsToStringArr xs

/-- Comma-joined stringification of an array's elements. -/
def jsToStringArr : List JValue → String
  | [] => ""
  | [x] => jsToString x
  | x :: y :: rest => jsToString x ++ "," ++ jsToStringArr (y :: rest)

end

/-- An arguments object: an association list from argument names to
values, unique keys (JavaScript object semantics). -/
def Params := List (String × JValue)

/-- `params[name]`: property access, `undefined` when absent. -/
def pGet (ps : Params) (name : String) : JValue :=
  match List.lookup name ps with
  | some v => v
  | none => .vUndefined

/-- `delete obj[name]` on an arguments object. -/
def pDelete (ps : Params) (name : String) : Params :=
  List.filter (fun kv => kv.1 ≠ name) ps

/-! ## Parsed YAML/JSON documents -/

/-- A parsed YAML/JSON tree: the OpenAPI description document and the
schema fragments inside it. -/
inductive JSON where
  | str (s : String)
  | num (n : Int)
  | bool (b : Bool)
  | null
  | arr (xs : List JSON)
  | obj (fields : List (String × JSON))

/-- Property access `doc[key]` on a parsed document, `none` meaning
JavaScript `undefined`. Arrays are indexable by decimal keys; property
access on primitives yields `undefined` (no reference path in the
OpenAPI document indexes primitives). -/
def jsGet : JSON → String → Option JSON
  | .obj fields, k => List.lookup k fields
  | .arr xs, k =>
    match k.toNat? with
    | some i => xs.get? i
    | none => none
  | _, _ => none

/-- JavaScript truthiness of a document node (objects and arrays are
always truthy; `''`, `0`, `false`, `null` are falsy). -/
def jsTruthy : JSON → Bool
  | .str s => !s.isEmpty
  | .num n => n ≠ 0
  | .bool b => b
  | .null => false
  | .arr _ => true
  | .obj _ => true

/-- `schema.key` read as a truthy-or-nothing field: `some v` exactly
when the field is present and truthy (the shape of every `if (schema.key)`
test in the translator). -/
def jsGetTruthy (j : JSON) (k : String) : Option JSON :=
  match jsGet j k with
  | some v => if jsTruthy v then some v else none
  | none => none

/-- `schema.description || ''`. -/
def descOrEmpty (j : JSON) : String :=
  match jsGetTruthy j "description" with
  | some (.str s) => s
  | _ => ""

/-! ## Zod validators (the shapes the translator constructs) -/

/-- The runtime validators `openapiToZod` can build. Each constructor
carries the `_def.description` slot (set by `.describe`, absent by
default). `zEnum` carries the raw `schema.enum` value passed to
`z.enum(...)`. -/
inductive Zod where
  | zAny (desc : Option String)
  | zString (email : Bool) (desc : Option String)
  | zEnum (values : JSON) (desc : Option String)
  | zNumber (min max : Option Int) (desc : Option String)
  | zBool (desc : Option String)
  | zArray (elem : Zod) (desc : Option String)
  | zRecordAny (desc : Option String)
  | zObject (shape : List (String × Zod)) (desc : Option String)
  | zUnion (branches : List Zod) (desc : Option String)
  | zOptional (inner : Zod) (desc : Option String)

/-- `.describe(s)`: replace the description slot. -/
def Zod.describe : Zod → String → Zod
  | .zAny _, s => .zAny (some s)
  | .zString e _, s => .zString e (some s)
  | .zEnum v _, s => .zEnum v (some s)
  | .zNumber lo hi _, s => .zNumber lo hi (some s)
  | .zBool _, s => .zBool (some s)
  | .zArray e _, s => .zArray e (some s)
  | .zRecordAny _, s => .zRecordAny (some s)
  | .zObject sh _, s => .zObject sh (some s)
  | .zUnion br _, s => .zUnion br (some s)
  | .zOptional i _, s => .zOptional i (some s)

/-- The `_def.description` slot of a validator. -/
def Zod.descOf : Zod → Option String
  | .zAny d | .zString _ d | .zEnum _ d | .zNumber _ _ d | .zBool d
  | .zArray _ d | .zRecordAny d | .zObject _ d | .zUnion _ d | .zOptional _ d => d

/-! ## Operations and their parameters -/

/-- One entry of an operation's `parameters` list. The JavaScript field
`in` is spelled `paramIn` (`in` is reserved in Lean); `required` is the
truthiness of the parameter's `required` field. The parameter's schema
plays no role in the claims about the pipeline and is omitted. -/
structure Param where
  name : String
  paramIn : String
  required : Bool
deriving DecidableEq, Repr

/-- The slice of an OpenAPI operation object the parameter pipeline
reads: its (possibly absent) `parameters` list. -/
structure Operation where
  parameters : Option (List Param)
deriving DecidableEq, Repr

/-- `operation.parameters?.filter(p => p.in === loc) || []`. -/
def paramsIn (op : Operation) (loc : String) : List Param :=
  (op.parameters.getD []).filter (fun p => p.paramIn = loc)

/-! ## Source functions: the parameter pipeline -/

/-- The placeholder text for a path parameter, `"{" + name + "}"`. -/
def placeholder (name : String) : List Char := '{' :: name.data ++ ['}']

/-- The loop body of `processPathParameters`: for each declared path
parameter, test truthiness of its value in the *original* arguments
object, substitute its percent-encoded value for the placeholder in the
accumulated path (first occurrence, as `String.prototype.replace` with a
string pattern) and delete the key from the remaining arguments, or
throw naming the parameter. -/
def pppLoop (params : Params) : List Param → List Char → Params →
    Except String (List Char × Params)
  | [], actualPath, remaining => .ok (actualPath, remaining)
  | p :: rest, actualPath, remaining =>
    if truthy (pGet params p.name) then
      pppLoop params rest
        (replaceFirstL (placeholder p.name)
          (encodeURIComponentL (jsToString (pGet params p.name)).data) actualPath)
        (pDelete remaining p.name)
    else
      .error ("Required path parameter '" ++ p.name ++ "' is missing")

/-- `processPathParameters(path, operation, params)` from the source:
substitutes every `path`-located parameter into the URL template and
removes it from the copy of the arguments, throwing (modelled as
`Except.error`) when a path parameter's supplied value is falsy. -/
def processPathParameters (path : String) (op : Operation) (params : Params) :
    Except String (String × Params) :=
  (pppLoop params (paramsIn op "path") path.data params).map
    fun r => (String.mk r.1, r.2)

/-- `separateParameters(params, operation, method)` from the source:
partition the remaining arguments into query and body sets by membership
of the name in the operation's declared `query` parameters; for a GET
verb (after upper-casing) merge the body set into the query set and
empty it. -/
def separateParameters (params : Params) (op : Operation) (method : String) :
    Params × Params :=
  let definedQueryParams := (paramsIn op "query").map (·.name)
  let queryParams := params.filter (fun kv => kv.1 ∈ definedQueryParams)
  let bodyParams := params.filter (fun kv => kv.1 ∉ definedQueryParams)
  if jsToUpper method = "GET" then (queryParams ++ bodyParams, [])
  else (queryParams, bodyParams)

/-- The serialization `URLSearchParams.prototype.toString` of an
append-built parameter list. -/
def urlSearchParamsToString (entries : List (String × String)) : String :=
  String.intercalate "&" (entries.map fun kv => formEncode kv.1 ++ "=" ++ formEncode kv.2)

/-- The `for (const [key, value] of Object.entries(queryParams))` loop
of `appendQueryString`: append `(key, value.toString())` for every entry
whose value is neither `undefined` nor `null`, in order. -/
def qsEntries : Params → List (String × String)
  | [] => []
  | kv :: rest =>
    match kv.2 with
    | .vUndefined => qsEntries rest
    | .vNull => qsEntries rest
    | v => (kv.1, jsToString v) :: qsEntries rest

/-- `appendQueryString(path, queryParams)` from the source: the bare
path when the query set is empty (`Object.keys(queryParams).length === 0`),
otherwise `path?` followed by the `URLSearchParams` serialization of the
non-`undefined`, non-`null` entries, each value stringified on append. -/
def appendQueryString (path : String) (queryParams : Params) : String :=
  if queryParams.length = 0 then path
  else path ++ "?" ++ urlSearchParamsToString (qsEntries queryParams)

/-! ## Source functions: identifiers and lookup -/

/-- `sanitizeToolId(operationId)`: replace every character that is not a
word character (`\w`, i.e. alphanumeric or underscore) and not a hyphen
by a hyphen, then lower-case. -/
def sanitizeToolId (operationId : String) : String :=
  String.mk ((operationId.data.map fun c =>
    if isWordChar c || c = '-' then c else '-').map toLowerAscii)

/-- The canonical operation identifier built by `getOperationDetails`:
the verb, a hyphen, and the URL template with non-word, non-hyphen
characters replaced by hyphens and hyphen runs collapsed. -/
def operationIdFor (method path : String) : String :=
  method ++ "-" ++ String.mk (collapseHyphens (path.data.map fun c =>
    if isWordChar c || c = '-' then c else '-'))

/-- `getOperationDetails(openApiSpec, method, path)`: look up
`openApiSpec.paths?.[path]?.[method.toLowerCase()]`; `null` (modelled
`none`) when the chain is absent or the operation entry falsy, otherwise
the operation fragment and the canonical identifier. -/
def getOperationDetails (openApiSpec : JSON) (method path : String) :
    Option (JSON × String) :=
  let lowerMethod := jsToLower method
  match jsGet openApiSpec "paths" with
  | none => none
  | some paths =>
    match jsGet paths path with
    | none => none
    | some byVerb =>
      match jsGet byVerb lowerMethod with
      | none => none
      | some operation =>
        if jsTruthy operation then some (operation, operationIdFor method path)
        else none

/-! ## Source functions: reference resolution -/

/-- One step of the `reduce((obj, path) => obj[path], openApiSpec)`
walk: property access on `undefined` or `null` throws a `TypeError`;
on any other value it yields the (possibly `undefined`) property. -/
def refStep (acc : Except String (Option JSON)) (seg : String) :
    Except String (Option JSON) :=
  match acc with
  | .error e => .error e
  | .ok none =>
    .error ("TypeError: Cannot read properties of undefined (reading '" ++ seg ++ "')")
  | .ok (some .null) =>
    .error ("TypeError: Cannot read properties of null (reading '" ++ seg ++ "')")
  | .ok (some cur) => .ok (jsGet cur seg)

/-- `resolveReference(ref, openApiSpec)` from the source: strip the
first occurrence of `#/`, split on `/`, and fold property accesses over
the document. `ok none` is a JavaScript `undefined` result; `error` is a
thrown `TypeError`. -/
def resolveReference (ref : String) (openApiSpec : JSON) :
    Except String (Option JSON) :=
  let refPath := (splitOnCharL '/' (replaceFirstL ['#', '/'] [] ref.data)).map String.mk
  refPath.foldl refStep (.ok (some openApiSpec))

/-! ## Source functions: the schema translator -/

/-- `array.includes(key)` on a parsed `required` array of strings. -/
def containsStr (xs : List JSON) (k : String) : Bool :=
  xs.any fun v =>
    match v with
    | .str s => s = k
    | _ => false

/-- The walk of the `for (const segment of refPath)` loop inside
`openapiToZod`'s `$ref` branch: fail (returning the failing segment)
when the current node is falsy or the looked-up property is absent or
falsy, otherwise descend. -/
def refWalk : JSON → List String → Except String JSON
  | referenced, [] => .ok referenced
  | referenced, seg :: rest =>
    if jsTruthy referenced then
      match jsGetTruthy referenced seg with
      | some v => refWalk v rest
      | none => .error seg
    else .error seg

/-- `schema.minimum` / `schema.maximum` read as a number
(`!== undefined` in the source; a present non-numeric bound does not
occur in the API description and is not modelled). -/
def numField (j : JSON) (k : String) : Option Int :=
  match jsGet j k with
  | some (.num n) => some n
  | _ => none

/-- The `shape` construction shared by the `object` case and the
untyped-`properties` default case: each property is translated by the
recursive call `recur` and wrapped `.optional()` unless listed in the
fragment's `required` array. -/
def zodShape (recur : JSON → Option Zod) (schema : JSON)
    (props : List (String × JSON)) : Option (List (String × Zod)) :=
  props.mapM fun kv =>
    (recur kv.2).map fun z =>
      (kv.1,
        if (match jsGet schema "required" with
            | some (.arr req) => containsStr req kv.1
            | _ => false) then z else Zod.zOptional z none)

/-- The `switch (schema.type)` statement of `openapiToZod`, with the
recursive translation passed in as `recur`. -/
def zodSwitch (recur : JSON → Option Zod) (schema : JSON) : Option Zod :=
  match jsGet schema "type" with
  | some (.str "string") =>
    match jsGetTruthy schema "enum" with
    | some e => some (.zEnum e none)
    | none =>
      let email :=
        match jsGet schema "format" with
        | some (.str "email") => true
        | _ => false
      some (.zString email (some (descOrEmpty schema)))
  | some (.str "number") =>
    some (.zNumber (numField schema "minimum") (numField schema "maximum")
      (some (descOrEmpty schema)))
  | some (.str "integer") =>
    some (.zNumber (numField schema "minimum") (numField schema "maximum")
      (some (descOrEmpty schema)))
  | some (.str "boolean") => some (.zBool (some (descOrEmpty schema)))
  | some (.str "array") =>
    (recur ((jsGet schema "items").getD .null)).map
      fun z => .zArray z (some (descOrEmpty schema))
  | some (.str "object") =>
    match jsGetTruthy schema "properties" with
    | some (.obj props) =>
      (zodShape recur schema props).map
        fun shape => .zObject shape (some (descOrEmpty schema))
    | _ => some (.zRecordAny none)
  | _ =>
    match jsGetTruthy schema "properties" with
    | some (.obj props) =>
      (zodShape recur schema props).map
        fun shape => .zObject shape (some (descOrEmpty schema))
    | _ =>
      match jsGetTruthy schema "oneOf" with
      | some (.arr branches) =>
        (branches.mapM recur).map
          fun bs => .zUnion bs (some (descOrEmpty schema))
      | _ =>
        match jsGetTruthy schema "anyOf" with
        | some (.arr branches) =>
          (branches.mapM recur).map
            fun bs => .zUnion bs (some (descOrEmpty schema))
        | _ => some (.zAny (some (descOrEmpty schema)))

/-- `openapiToZod(schema, fullSpec)` from the source, with explicit
recursion fuel (the JavaScript original can diverge on cyclic
references; `none` means the fuel ran out, which no finite acyclic
schema reaches). Branches follow the source exactly: falsy schema,
`$ref` (internal `#/` walk with the `EventSeverityType` special case,
then recursion on the resolved fragment; other formats unsupported),
then the `switch` on `schema.type` with the default branch handling
untyped `properties`, `oneOf`, `anyOf`, and the final accept-anything
fallback. Non-string `$ref` values, non-object `properties` and
non-array `oneOf`/`anyOf` values do not occur in the API description
and are not modelled. -/
def openapiToZodF : Nat → JSON → JSON → Option Zod
  | 0, _, _ => none
  | fuel + 1, schema, fullSpec =>
    if !(jsTruthy schema) then some (.zAny none)
    else
      match jsGetTruthy schema "$ref" with
      | some (.str ref) =>
        if (['#', '/']).isPrefixOf ref.data then
          let refPath := (splitOnCharL '/' (ref.data.drop 2)).map String.mk
          match refWalk fullSpec refPath with
          | .ok referenced => openapiToZodF fuel referenced fullSpec
          | .error segment =>
            if segment = "EventSeverityType" ||
                ("EventSeverityType".data).isSuffixOf ref.data then
              some ((Zod.zEnum (.arr [.str "temporary", .str "permanent"]) none).describe
                "Filter by event severity")
            else
              some ((Zod.zAny none).describe ("Failed reference: " ++ ref))
        else
          some ((Zod.zAny none).describe ("Unsupported reference: " ++ ref))
      | _ => zodSwitch (fun s => openapiToZodF fuel s fullSpec) schema

/-! ## Source functions: the outbound request and the call handler -/

/-- The environment's behaviour for one outbound HTTPS request: either
the request emits an `error` event, or a response arrives with a status
code and a body whose `JSON.parse` outcome is `parsed` (`JSON.parse` is
treated as an oracle: `parsed` is its result on `body`). -/
inductive HttpOutcome where
  | networkError (message : String)
  | response (statusCode : Nat) (body : String) (parsed : Except String JSON)

/-- The promise settled by `makeMailgunRequest(method, path, data)` in
environment `outcome`: a network error rejects with the error's message;
a body that fails to parse rejects with `Failed to parse response: …`;
a parsed body resolves when the status is 2xx and otherwise rejects with
`Mailgun API error: ` followed by the parsed `message` field (or the raw
body when that field is falsy or absent). -/
def makeMailgunRequest (method path : String) (data : Option Params)
    (outcome : HttpOutcome) : Except String JSON :=
  match outcome with
  | .networkError m => .error m
  | .response statusCode body parsed =>
    match parsed with
    | .error em => .error ("Failed to parse response: " ++ em)
    | .ok parsedData =>
      if 200 ≤ statusCode && statusCode < 300 then .ok parsedData
      else
        .error ("Mailgun API error: " ++
          (match jsGetTruthy parsedData "message" with
           | some (.str s) => s
           | _ => body))

/-- Minimal string escaping for the serialized success payload
(backslash, quote, newline; further control-character escapes are not
exercised by any claim). -/
def jsEscape (s : String) : String :=
  String.mk <| s.data.flatMap fun c =>
    if c = '\\' then ['\\', '\\']
    else if c = '"' then ['\\', '"']
    else if c = '\n' then ['\\', 'n']
    else [c]

mutual

/-- `JSON.stringify(result)` (compact form; the 2-space indentation of
the pretty form in the source is whitespace no claim depends on). -/
def jsonStringify : JSON → String
  | .str s => "\"" ++ jsEscape s ++ "\""
  | .num n => toString n
  | .bool b => if b then "true" else "false"
  | .null => "null"
  | .arr xs => "[" ++ jsonStringifyElems xs ++ "]"
  | .obj fs => String.singleton '{' ++ jsonStringifyFields fs ++ String.singleton '}'

/-- Comma-joined serialization of array elements. -/
def jsonStringifyElems : List JSON → String
  | [] => ""
  | [x] => jsonStringify x
  | x :: y :: rest => jsonStringify x ++ "," ++ jsonStringifyElems (y :: rest)

/-- Comma-joined serialization of object fields. -/
def jsonStringifyFields : List (String × JSON) → String
  | [] => ""
  | [kv] => "\"" ++ jsEscape kv.1 ++ "\":" ++ jsonStringify kv.2
  | kv :: x :: rest =>
    "\"" ++ jsEscape kv.1 ++ "\":" ++ jsonStringify kv.2 ++ "," ++
      jsonStringifyFields (x :: rest)

end

/-- The text of the error result the registered tool's `catch` block
returns: `Error: ` followed by `error.message || String(error)` (an
`Error` with an empty message stringifies to `Error`). -/
def errorText (message : String) : String :=
  "Error: " ++ (if message.isEmpty then "Error" else message)

/-- The text of the success result. -/
def successText (method finalPath : String) (result : JSON) : String :=
  "✅ " ++ method ++ " " ++ finalPath ++ " completed successfully:\n" ++
    jsonStringify result

/-- The body of the async callback `registerTool` installs for a tool:
run the parameter pipeline, perform the request, and produce the single
text content of the structured result. Every failure — a throw from
`processPathParameters` or a rejection from `makeMailgunRequest` — is
caught and becomes `errorText`; the function is total, so no invocation
escapes the boundary. -/
def toolCallText (method path : String) (op : Operation) (params : Params)
    (outcome : HttpOutcome) : String :=
  match processPathParameters path op params with
  | .error e => errorText e
  | .ok (actualPath, remainingParams) =>
    let sep := separateParameters remainingParams op method
    let finalPath := appendQueryString actualPath sep.1
    match makeMailgunRequest (jsToUpper method) finalPath
        (if jsToUpper method = "GET" then none else some sep.2) outcome with
    | .error e => errorText e
    | .ok result => successText (jsToUpper method) finalPath result

/-! ## Specification-side notions

The following definitions formalise the spec's vocabulary (URL templates
with placeholders, simultaneous substitution, pointer walks); theorems
relate the source functions above to them. -/

/-- A URL template parsed into literal chunks and `\x7bname\x7d`
placeholders. -/
inductive Seg where
  | lit (s : String)
  | ph (n : String)
deriving DecidableEq, Repr

/-- The character rendering of one template segment. -/
def renderSeg : Seg → List Char
  | .lit s => s.data
  | .ph n => placeholder n

/-- The character rendering of a template. -/
def renderT (segs : List Seg) : List Char := (segs.map renderSeg).flatten

/-- The placeholder names of a template, in order. -/
def phNames (segs : List Seg) : List String :=
  segs.filterMap fun s =>
    match s with
    | .ph n => some n
    | .lit _ => none

/-- A template is well-formed when literal chunks contain no braces and
placeholder names contain no braces, and the placeholders are pairwise
distinct. -/
def templateOk (segs : List Seg) : Prop :=
  (∀ s, Seg.lit s ∈ segs → '{' ∉ s.data ∧ '}' ∉ s.data) ∧
  (∀ n ∈ phNames segs, '{' ∉ n.data ∧ '}' ∉ n.data) ∧
  (phNames segs).Nodup

/-- The simultaneous substitution the spec describes: every placeholder
replaced by the percent-encoded stringification of its argument value. -/
def substTemplate (args : Params) (segs : List Seg) : List Seg :=
  segs.map fun s =>
    match s with
    | .lit t => .lit t
    | .ph n => .lit (encodeURIComponent (jsToString (pGet args n)))

/-- Iterated key deletion. -/
def removeKeys (ps : Params) (names : List String) : Params :=
  names.foldl pDelete ps

/-- Successive successful `doc[seg]` lookups from `doc` along `segs`
ending at `v` (the spec's "walk the document by successive key
lookups"). -/
inductive Walk : JSON → List String → JSON → Prop where
  | nil (doc : JSON) : Walk doc [] doc
  | cons {doc u v : JSON} {s : String} {rest : List String} :
      jsGet doc s = some u → Walk u rest v → Walk doc (s :: rest) v

/-- Successive truthiness-checked lookups, the walk the `$ref` branch of
the schema translator performs: each visited node is truthy and each
looked-up property present and truthy. -/
inductive TruthyWalk : JSON → List String → JSON → Prop where
  | nil (doc : JSON) : TruthyWalk doc [] doc
  | cons {doc u v : JSON} {s : String} {rest : List String} :
      jsTruthy doc = true → jsGetTruthy doc s = some u → TruthyWalk u rest v →
      TruthyWalk doc (s :: rest) v

/-- Slash-joined concatenation of path segments. -/
def joinSlash : List (List Char) → List Char
  | [] => []
  | [x] => x
  | x :: y :: rest => x ++ '/' :: joinSlash (y :: rest)

/-- The `#/`-prefixed pointer string with the given segments. -/
def mkRef (segs : List String) : String :=
  String.mk ('#' :: '/' :: joinSlash (segs.map String.data))

/-! # Theorems -/

/-! ## Generic helpers -/

theorem isPrefixOf_append_self (a b : List Char) : a.isPrefixOf (a ++ b) = true := by
  induction a with
  | nil => simp [List.isPrefixOf]
  | cons c cs ih => simp [List.isPrefixOf, ih]

theorem data_append (s t : String) : (s ++ t).data = s.data ++ t.data :=
  String.data_append s t

theorem string_eq_of_data (s t : String) (h : s.data = t.data) : s = t := by
  cases s; cases t; exact congrArg String.mk h

/-- The error result text always carries the `Error: ` prefix. -/
theorem errorText_starts_error (m : String) :
    ("Error: ".data).isPrefixOf (errorText m).data = true := by
  rw [errorText, data_append]
  exact isPrefixOf_append_self _ _

/-! ## The path-parameter loop on a falsy argument -/

/-- If any declared path parameter has a falsy value in the arguments
object, the loop throws, and the message names a path parameter whose
value is falsy. -/
theorem pppLoop_falsy (params : Params) :
    ∀ (ps : List Param) (ap : List Char) (rem : Params),
      (∃ p ∈ ps, truthy (pGet params p.name) = false) →
      ∃ q ∈ ps, truthy (pGet params q.name) = false ∧
        pppLoop params ps ap rem =
          .error ("Required path parameter '" ++ q.name ++ "' is missing") := by
  intro ps
  induction ps with
  | nil => intro ap rem h; simp at h
  | cons p rest ih =>
    intro ap rem h
    by_cases hp : truthy (pGet params p.name) = true
    · obtain ⟨q, hq, hfalse⟩ := h
      rcases List.mem_cons.mp hq with rfl | hq'
      · rw [hp] at hfalse; cases hfalse
      · obtain ⟨q', hq', hf', heq⟩ := ih
          (replaceFirstL (placeholder p.name)
            (encodeURIComponentL (jsToString (pGet params p.name)).data) ap)
          (pDelete rem p.name) ⟨q, hq', hfalse⟩
        exact ⟨q', List.mem_cons_of_mem _ hq', hf', by
          rw [pppLoop, if_pos hp]; exact heq⟩
    · refine ⟨p, List.mem_cons_self _ _, Bool.eq_false_iff.mpr hp, ?_⟩
      rw [pppLoop, if_neg hp]

/-! ## C2 -/

/-- C2: for every operation with a path-located parameter and every
argument mapping not containing that parameter's name,
`processPathParameters` throws an error of the form
`Required path parameter '<name>' is missing`, naming a path parameter
whose supplied value is missing (the first such parameter in declaration
order), and the registered call handler converts the throw into a tool
result whose text begins with `Error: ` instead of crashing. -/
theorem c2_missing_path_param_is_error (path : String) (op : Operation)
    (params : Params) (p : Param) (hp : p ∈ paramsIn op "path")
    (hlook : List.lookup p.name params = none) :
    ∃ q ∈ paramsIn op "path", truthy (pGet params q.name) = false ∧
      processPathParameters path op params =
        .error ("Required path parameter '" ++ q.name ++ "' is missing") ∧
      ∀ (method : String) (outcome : HttpOutcome),
        ("Error: ".data).isPrefixOf
          (toolCallText method path op params outcome).data = true := by
  have hfalsy : truthy (pGet params p.name) = false := by
    rw [pGet, hlook]; rfl
  obtain ⟨q, hq, hf, heq⟩ :=
    pppLoop_falsy params (paramsIn op "path") path.data params ⟨p, hp, hfalsy⟩
  have hppp : processPathParameters path op params =
      .error ("Required path parameter '" ++ q.name ++ "' is missing") := by
    rw [processPathParameters, heq]; rfl
  refine ⟨q, hq, hf, hppp, ?_⟩
  intro method outcome
  simp only [toolCallText, hppp]
  exact errorText_starts_error _

/-- Witness for C2 at the repository's own test vector. -/
theorem c2_missing_path_param_is_error_witness :
    ("Error: ".data).isPrefixOf
      (toolCallText "POST" "/v3/{domain_name}/messages"
        ⟨some [⟨"domain_name", "path", true⟩]⟩
        [("to", JValue.vStr "test@example.com")] (.networkError "boom")).data = true := by
  obtain ⟨q, _, _, _, hpre⟩ :=
    c2_missing_path_param_is_error "/v3/{domain_name}/messages"
      ⟨some [⟨"domain_name", "path", true⟩]⟩ [("to", JValue.vStr "test@example.com")]
      ⟨"domain_name", "path", true⟩ (by decide) (by rfl)
  exact hpre "POST" (.networkError "boom")

/-! ## C10 -/

/-- C10: `processPathParameters` treats every falsy supplied value
(absent key, empty string, `0`, `false`, `null`) for a path-located
parameter as missing and throws the
`Required path parameter '<name>' is missing` error, for every parameter
declared with location `path` regardless of its `required` flag (the
quantification imposes nothing on `Param.required`); consequently the
result is an error and no empty-string argument is ever substituted. -/
theorem c10_falsy_path_param_is_missing (path : String) (op : Operation)
    (params : Params) (p : Param) (hp : p ∈ paramsIn op "path")
    (hfalsy : truthy (pGet params p.name) = false) :
    ∃ q ∈ paramsIn op "path", truthy (pGet params q.name) = false ∧
      processPathParameters path op params =
        .error ("Required path parameter '" ++ q.name ++ "' is missing") := by
  obtain ⟨q, hq, hf, heq⟩ :=
    pppLoop_falsy params (paramsIn op "path") path.data params ⟨p, hp, hfalsy⟩
  exact ⟨q, hq, hf, by rw [processPathParameters, heq]; rfl⟩

/-- Witness for C10: an empty-string value for a path parameter whose
`required` flag is `false` still raises the missing-parameter error. -/
theorem c10_falsy_path_param_is_missing_witness :
    processPathParameters "/v4/domains/{name}" ⟨some [⟨"name", "path", false⟩]⟩
      [("name", JValue.vStr "")] =
      .error "Required path parameter 'name' is missing" := by
  obtain ⟨q, hq, _, heq⟩ :=
    c10_falsy_path_param_is_missing "/v4/domains/{name}"
      ⟨some [⟨"name", "path", false⟩]⟩ [("name", JValue.vStr "")]
      ⟨"name", "path", false⟩ (by decide) (by rfl)
  have hq' : q = ⟨"name", "path", false⟩ := List.mem_singleton.mp hq
  subst hq'
  exact heq

/-! ## C4 -/

/-- C4: for a non-GET verb, `separateParameters` routes exactly the
arguments whose names match a declared query-location parameter into the
query set (in order) and all the others into the body set; for a verb
that upper-cases to `GET`, the body set is empty and the query set is a
permutation of (contains exactly) the arguments. -/
theorem c4_separate_parameters (params : Params) (op : Operation) (method : String) :
    (jsToUpper method ≠ "GET" →
      separateParameters params op method =
        (params.filter (fun kv => kv.1 ∈ (paramsIn op "query").map (·.name)),
         params.filter (fun kv => kv.1 ∉ (paramsIn op "query").map (·.name)))) ∧
    (jsToUpper method = "GET" →
      (separateParameters params op method).2 = [] ∧
      List.Perm (separateParameters params op method).1 params) := by
  constructor
  · intro h
    simp only [separateParameters, if_neg h]
  · intro h
    simp only [separateParameters, if_pos h]
    refine ⟨trivial, ?_⟩
    simp only [decide_not]
    exact List.filter_append_perm _ _

/-- Witness for C4 at the repository's own test vector. -/
theorem c4_separate_parameters_witness :
    (separateParameters
        [("limit", JValue.vNum 10), ("page", JValue.vNum 1),
         ("to", JValue.vStr "test@example.com"), ("from", JValue.vStr "sender@example.com")]
        ⟨some [⟨"limit", "query", false⟩, ⟨"page", "query", false⟩]⟩ "POST" =
      ([("limit", JValue.vNum 10), ("page", JValue.vNum 1)],
       [("to", JValue.vStr "test@example.com"), ("from", JValue.vStr "sender@example.com")])) ∧
    ((separateParameters
        [("limit", JValue.vNum 10), ("page", JValue.vNum 1),
         ("to", JValue.vStr "test@example.com"), ("from", JValue.vStr "sender@example.com")]
        ⟨some [⟨"limit", "query", false⟩, ⟨"page", "query", false⟩]⟩ "GET").2 = [] ∧
      List.Perm
        (separateParameters
          [("limit", JValue.vNum 10), ("page", JValue.vNum 1),
           ("to", JValue.vStr "test@example.com"), ("from", JValue.vStr "sender@example.com")]
          ⟨some [⟨"limit", "query", false⟩, ⟨"page", "query", false⟩]⟩ "GET").1
        [("limit", JValue.vNum 10), ("page", JValue.vNum 1),
         ("to", JValue.vStr "test@example.com"), ("from", JValue.vStr "sender@example.com")]) := by
  constructor
  · exact (c4_separate_parameters _ _ "POST").1 (by decide)
  · exact (c4_separate_parameters _ _ "GET").2 (by rfl)

/-! ## Character lemmas for the sanitizer -/

theorem data_mk (l : List Char) : (String.mk l).data = l := rfl

theorem toNat_ofNat_valid (n : Nat) (h : n.isValidChar) :
    (Char.ofNat n).toNat = n := by
  rw [Char.ofNat, dif_pos h]; rfl

/-- ASCII lower-casing on the codepoint. -/
theorem toLowerAscii_toNat (c : Char) :
    (toLowerAscii c).toNat =
      if isAsciiUpper c = true then c.toNat + 32 else c.toNat := by
  rw [toLowerAscii]
  by_cases h : isAsciiUpper c = true
  · rw [if_pos h, if_pos h, toNat_ofNat_valid]
    have : c.toNat ≤ 90 := by
      simp [isAsciiUpper] at h; omega
    exact Or.inl (by omega)
  · rw [if_neg h, if_neg h]

/-! ## C7 -/

/-- C7 counterexample: the tool identifier derived for the allow-listed
endpoint `POST /v3/\x7bdomain_name\x7d/messages` is
`post--v3-domain_name-messages`, which contains an underscore — the
identifier does not consist only of alphanumerics and hyphens, because
`\w` keeps underscores. -/
theorem c7_counterexample :
    sanitizeToolId (operationIdFor "POST" "/v3/{domain_name}/messages") =
      "post--v3-domain_name-messages" ∧
    ¬ (∀ c ∈ (sanitizeToolId (operationIdFor "POST" "/v3/{domain_name}/messages")).data,
        isAsciiAlnum c = true ∨ c = '-') :=
  ⟨rfl, by decide⟩

/-- C7 amended: every character of a sanitized tool identifier is a
lowercase ASCII letter, a digit, an underscore, or a hyphen (the word
characters `\w` survive, underscore included, lower-cased), and every
character of the input that is neither a word character nor a hyphen is
replaced by a hyphen at its position. -/
theorem c7_sanitize_charset (operationId : String) :
    (∀ c ∈ (sanitizeToolId operationId).data,
      isAsciiLower c = true ∨ isAsciiDigit c = true ∨ c = '_' ∨ c = '-') ∧
    (∀ (i : Nat) (c : Char), operationId.data[i]? = some c →
      (isWordChar c || c = '-') = false →
      (sanitizeToolId operationId).data[i]? = some '-') := by
  constructor
  · intro c hc
    rw [sanitizeToolId, data_mk] at hc
    simp only [List.mem_map] at hc
    obtain ⟨c1, ⟨c0, _, rfl⟩, rfl⟩ := hc
    by_cases hw : (isWordChar c0 || c0 = '-') = true
    · simp only [if_pos hw]
      rcases Bool.or_eq_true _ _ |>.mp hw with hwc | hyph
    -- word character: alphanumeric or underscore
      · rcases Bool.or_eq_true _ _ |>.mp hwc with halnum | hund
        · rcases Bool.or_eq_true _ _ |>.mp halnum with hul | hdig
          · rcases Bool.or_eq_true _ _ |>.mp hul with hup | hlo
            · left
              simp only [isAsciiLower, toLowerAscii_toNat, if_pos hup]
              simp only [isAsciiUpper] at hup ⊢
              simp only [Bool.and_eq_true, decide_eq_true_eq] at hup ⊢
              omega
            · left
              simp only [isAsciiLower, toLowerAscii_toNat] at hlo ⊢
              simp only [isAsciiUpper, isAsciiLower, Bool.and_eq_true,
                decide_eq_true_eq] at hlo ⊢
              rw [if_neg (by simp [Bool.and_eq_true, decide_eq_true_eq]; omega)]
              omega
          · right; left
            simp only [isAsciiDigit, Bool.and_eq_true, decide_eq_true_eq] at hdig ⊢
            rw [toLowerAscii_toNat,
              if_neg (by simp [isAsciiUpper, Bool.and_eq_true, decide_eq_true_eq]; omega)]
            omega
        · right; right; left
          have : c0 = '_' := by simpa using hund
          subst this; decide
      · right; right; right
        have : c0 = '-' := by simpa using hyph
        subst this; decide
    · simp only [if_neg hw]
      right; right; right; decide
  · intro i c hi hf
    rw [sanitizeToolId, data_mk]
    simp only [List.getElem?_map, hi, Option.map_some']
    rw [if_neg (by simp [hf])]
    decide

/-- Witness for C7's amended statement. -/
theorem c7_sanitize_charset_witness :
    (isAsciiLower 'p' = true ∨ isAsciiDigit 'p' = true ∨ 'p' = '_' ∨ 'p' = '-') ∧
    (sanitizeToolId "P/x").data[1]? = some '-' :=
  ⟨(c7_sanitize_charset "P/x").1 'p' (by decide),
   (c7_sanitize_charset "P/x").2 1 '/' (by rfl) (by decide)⟩

/-! ## First-occurrence replacement and rendered templates -/

/-- A placeholder body followed by its closing brace can only be a
prefix of another placeholder body (followed by anything) when the two
bodies agree, provided neither body contains a closing brace. -/
theorem braceEnd_eq (nd : List Char) :
    ∀ (md ext : List Char), '}' ∉ nd → '}' ∉ md →
      (nd ++ ['}']).isPrefixOf (md ++ '}' :: ext) = true → nd = md := by
  induction nd with
  | nil =>
    intro md ext _ hmd h
    cases md with
    | nil => rfl
    | cons d md' =>
      simp only [List.nil_append, List.cons_append, List.isPrefixOf, Bool.and_eq_true,
        beq_iff_eq] at h
      obtain ⟨h1, -⟩ := h
      subst h1
      exact absurd (List.mem_cons_self _ _) hmd
  | cons c nd' ih =>
    intro md ext hnd hmd h
    cases md with
    | nil =>
      simp only [List.cons_append, List.nil_append, List.isPrefixOf, Bool.and_eq_true,
        beq_iff_eq] at h
      obtain ⟨h1, -⟩ := h
      subst h1
      exact absurd (List.mem_cons_self _ _) hnd
    | cons d md' =>
      simp only [List.cons_append, List.isPrefixOf, Bool.and_eq_true, beq_iff_eq] at h
      have hnd' : '}' ∉ nd' := fun hx => hnd (List.mem_cons_of_mem _ hx)
      have hmd' : '}' ∉ md' := fun hx => hmd (List.mem_cons_of_mem _ hx)
      rw [h.1, ih md' ext hnd' hmd' h.2]

/-- Distinct brace-free placeholder names never overlap: the placeholder
of `n` is not a prefix of the placeholder of `m` followed by anything. -/
theorem ph_no_overlap {n m : String} (hne : n ≠ m) (hn : '}' ∉ n.data)
    (hm : '}' ∉ m.data) (ext : List Char) :
    (placeholder n).isPrefixOf (placeholder m ++ ext) = false := by
  rw [Bool.eq_false_iff]
  intro h
  simp only [placeholder, List.cons_append, List.isPrefixOf, Bool.and_eq_true,
    beq_iff_eq] at h
  have h2 : (n.data ++ ['}']).isPrefixOf (m.data ++ '}' :: ext) = true := by
    have := h.2
    simpa [List.append_assoc] using this
  exact hne (string_eq_of_data _ _ (braceEnd_eq n.data m.data ext hn hm h2))

/-- Replacement scans unchanged through a chunk containing no opening
brace (the pattern starts with one). -/
theorem rf_skip_lit (n : String) (rep : List Char) :
    ∀ (s ext : List Char), '{' ∉ s →
      replaceFirstL (placeholder n) rep (s ++ ext) =
        s ++ replaceFirstL (placeholder n) rep ext := by
  intro s
  induction s with
  | nil => intro ext _; rfl
  | cons c s' ih =>
    intro ext h
    have hc : '{' ≠ c := fun hc => h (hc ▸ List.mem_cons_self _ _)
    have hpf : (placeholder n).isPrefixOf (c :: (s' ++ ext)) = false := by
      simp only [placeholder, List.isPrefixOf, Bool.and_eq_true, beq_iff_eq]
      simp [hc]
    rw [List.cons_append, replaceFirstL, hpf]
    simp only [Bool.false_eq_true, if_false,
      ih ext fun hx => h (List.mem_cons_of_mem _ hx)]
    rw [List.cons_append]

/-- Replacement scans unchanged through a different placeholder. -/
theorem rf_skip_ph {n m : String} (hne : m ≠ n) (hn : '}' ∉ n.data)
    (hm : '{' ∉ m.data ∧ '}' ∉ m.data) (rep ext : List Char) :
    replaceFirstL (placeholder n) rep (placeholder m ++ ext) =
      placeholder m ++ replaceFirstL (placeholder n) rep ext := by
  have hshape : placeholder m ++ ext = '{' :: (m.data ++ ('}' :: ext)) := by
    simp [placeholder]
  have hpf : (placeholder n).isPrefixOf ('{' :: (m.data ++ ('}' :: ext))) = false := by
    have := ph_no_overlap (fun h => hne h.symm) hn hm.2 ext
    rwa [hshape] at this
  rw [hshape, replaceFirstL, hpf]
  simp only [Bool.false_eq_true, if_false]
  rw [rf_skip_lit n rep m.data ('}' :: ext) hm.1, replaceFirstL,
    show (placeholder n).isPrefixOf ('}' :: ext) = false by
      simp [placeholder, List.isPrefixOf]]
  simp only [Bool.false_eq_true, if_false, placeholder, List.cons_append,
    List.append_assoc, List.singleton_append, List.nil_append]

/-- Replacement fires exactly at an occurrence of the full pattern. -/
theorem rf_exact (pat rep t : List Char) (h : pat ≠ []) :
    replaceFirstL pat rep (pat ++ t) = rep ++ t := by
  cases pat with
  | nil => cases h rfl
  | cons c cs =>
    rw [List.cons_append, replaceFirstL,
      show (c :: cs).isPrefixOf (c :: (cs ++ t)) = true by
        simp [List.isPrefixOf, isPrefixOf_append_self]]
    simp only [if_true]
    rw [show (c :: (cs ++ t)).drop (c :: cs).length = t by
      simp only [List.length_cons, List.drop_succ_cons]
      exact List.drop_left cs t]

theorem renderT_cons (seg : Seg) (t : List Seg) :
    renderT (seg :: t) = renderSeg seg ++ renderT t := rfl

theorem renderT_append (A B : List Seg) :
    renderT (A ++ B) = renderT A ++ renderT B := by
  induction A with
  | nil => rfl
  | cons seg A' ih =>
    rw [List.cons_append, renderT_cons, renderT_cons, ih, List.append_assoc]

theorem phNames_cons_lit (s : String) (t : List Seg) :
    phNames (Seg.lit s :: t) = phNames t := rfl

theorem phNames_cons_ph (n : String) (t : List Seg) :
    phNames (Seg.ph n :: t) = n :: phNames t := rfl

theorem phNames_append (A B : List Seg) :
    phNames (A ++ B) = phNames A ++ phNames B := by
  simp [phNames, List.filterMap_append]

/-- Replacement of a placeholder absent from a rendered prefix scans
through the whole prefix. -/
theorem rf_skip_render (n : String) (rep : List Char) :
    ∀ (A : List Seg) (ext : List Char),
      (∀ s, Seg.lit s ∈ A → '{' ∉ s.data) →
      (∀ m ∈ phNames A, m ≠ n ∧ '{' ∉ m.data ∧ '}' ∉ m.data) →
      '}' ∉ n.data →
      replaceFirstL (placeholder n) rep (renderT A ++ ext) =
        renderT A ++ replaceFirstL (placeholder n) rep ext := by
  intro A
  induction A with
  | nil => intro ext _ _ _; rfl
  | cons seg A' ih =>
    intro ext hlits hns hn
    cases seg with
    | lit s =>
      rw [renderT_cons, renderSeg, List.append_assoc,
        rf_skip_lit n rep s.data _ (hlits s (List.mem_cons_self _ _)),
        ih ext (fun x hx => hlits x (List.mem_cons_of_mem _ hx))
          (fun m hm => hns m hm) hn,
        List.append_assoc]
    | ph m =>
      have hmem : m ∈ phNames (Seg.ph m :: A') := List.mem_cons_self _ _
      obtain ⟨hne, hbr⟩ := hns m hmem
      rw [renderT_cons, renderSeg, List.append_assoc,
        rf_skip_ph hne hn hbr rep _,
        ih ext (fun x hx => hlits x (List.mem_cons_of_mem _ hx))
          (fun x hx => hns x (List.mem_cons_of_mem _ hx)) hn,
        List.append_assoc]

/-- Every hexadecimal digit character differs from the opening brace. -/
theorem hexDigit_ne_brace (k : Nat) : hexDigit k ≠ '{' := by
  unfold hexDigit
  split <;> decide

/-- Percent-encoded output never contains an opening brace. -/
theorem encode_no_brace (cs : List Char) : '{' ∉ encodeURIComponentL cs := by
  intro h
  rw [encodeURIComponentL] at h
  obtain ⟨c, _, hc⟩ := List.mem_flatMap.mp h
  by_cases hu : isUriUnreserved c = true
  · rw [if_pos hu] at hc
    have hcc : '{' = c := List.mem_singleton.mp hc
    rw [← hcc] at hu
    exact absurd hu (by decide)
  · rw [if_neg hu] at hc
    obtain ⟨b, _, hb⟩ := List.mem_flatMap.mp hc
    simp only [percentByte, List.mem_cons, List.mem_singleton, List.not_mem_nil,
      or_false] at hb
    rcases hb with hb | hb | hb
    · exact absurd hb (by decide)
    · exact hexDigit_ne_brace _ hb.symm
    · exact hexDigit_ne_brace _ hb.symm

/-! ## The substitution loop -/

/-- A template with no placeholders is untouched by substitution. -/
theorem substTemplate_id (args : Params) :
    ∀ (segs : List Seg), phNames segs = [] → substTemplate args segs = segs := by
  intro segs
  induction segs with
  | nil => intro _; rfl
  | cons seg t ih =>
    intro h
    cases seg with
    | lit s =>
      rw [phNames_cons_lit] at h
      calc substTemplate args (Seg.lit s :: t)
          = Seg.lit s :: substTemplate args t := rfl
        _ = Seg.lit s :: t := by rw [ih h]
    | ph n => rw [phNames_cons_ph] at h; cases h

/-- Any placeholder name occurs as an explicit `Seg.ph` segment. -/
theorem phNames_mem_split {n : String} :
    ∀ {segs : List Seg}, n ∈ phNames segs →
      ∃ A B, segs = A ++ Seg.ph n :: B := by
  intro segs
  induction segs with
  | nil => intro h; cases h
  | cons seg t ih =>
    intro h
    cases seg with
    | lit s =>
      obtain ⟨A, B, rfl⟩ := ih h
      exact ⟨Seg.lit s :: A, B, rfl⟩
    | ph m =>
      rw [phNames_cons_ph] at h
      rcases List.mem_cons.mp h with rfl | h'
      · exact ⟨[], t, rfl⟩
      · obtain ⟨A, B, rfl⟩ := ih h'
        exact ⟨Seg.ph m :: A, B, rfl⟩

theorem substTemplate_append (args : Params) (A B : List Seg) :
    substTemplate args (A ++ B) = substTemplate args A ++ substTemplate args B := by
  simp [substTemplate]

/-- Iterated deletion is a single filter. -/
theorem removeKeys_eq_filter :
    ∀ (names : List String) (ps : Params),
      removeKeys ps names = ps.filter (fun kv => kv.1 ∉ names) := by
  intro names
  induction names with
  | nil =>
    intro ps
    rw [removeKeys, List.foldl_nil]
    have : (fun kv : String × JValue => decide (kv.1 ∉ ([] : List String))) =
        fun _ => true := by
      funext kv; simp
    rw [this, List.filter_true]
  | cons n ns ih =>
    intro ps
    rw [removeKeys, List.foldl_cons, show List.foldl pDelete (pDelete ps n) ns =
      removeKeys (pDelete ps n) ns from rfl, ih, pDelete, List.filter_filter]
    refine List.filter_congr fun kv _ => ?_
    simp only [List.mem_cons, not_or, Bool.decide_and, decide_not]
    rw [Bool.and_comm]

/-- The path-substitution loop: when every remaining path parameter has
a truthy argument and owns exactly one placeholder in the current
(well-formed) template, the loop succeeds, performs the simultaneous
substitution, and deletes exactly the parameter names from the
remaining-argument set. -/
theorem pppLoop_subst :
    ∀ (ps : List Param) (segs : List Seg) (args rem : Params),
      (∀ s, Seg.lit s ∈ segs → '{' ∉ s.data) →
      (∀ n ∈ phNames segs, '{' ∉ n.data ∧ '}' ∉ n.data) →
      (phNames segs).Nodup →
      List.Perm (ps.map (·.name)) (phNames segs) →
      (∀ p ∈ ps, truthy (pGet args p.name) = true) →
      pppLoop args ps (renderT segs) rem =
        .ok (renderT (substTemplate args segs), removeKeys rem (ps.map (·.name))) := by
  intro ps
  induction ps with
  | nil =>
    intro segs args rem _ _ _ hperm _
    have hnil : phNames segs = [] := (hperm.symm.eq_nil)
    rw [substTemplate_id args segs hnil]
    rfl
  | cons p rest ih =>
    intro segs args rem hlits hnames hnodup hperm htruthy
    have htr : truthy (pGet args p.name) = true :=
      htruthy p (List.mem_cons_self _ _)
    have hmem : p.name ∈ phNames segs :=
      hperm.mem_iff.mp (by simp)
    obtain ⟨A, B, rfl⟩ := phNames_mem_split hmem
    have hphn : phNames (A ++ Seg.ph p.name :: B) =
        phNames A ++ p.name :: phNames B := by
      rw [phNames_append, phNames_cons_ph]
    have hnodup' : (p.name :: (phNames A ++ phNames B)).Nodup := by
      rw [← List.nodup_middle]
      rw [hphn] at hnodup
      exact hnodup
    have hnotinA : p.name ∉ phNames A :=
      fun hx => (List.nodup_cons.mp hnodup').1 (List.mem_append_left _ hx)
    have hbrace : '{' ∉ p.name.data ∧ '}' ∉ p.name.data :=
      hnames p.name hmem
    -- the rendered template splits around the unique placeholder
    have hrender : renderT (A ++ Seg.ph p.name :: B) =
        renderT A ++ (placeholder p.name ++ renderT B) := by
      rw [renderT_append, renderT_cons, renderSeg]
    -- the replacement hits exactly that placeholder
    have hreplace : replaceFirstL (placeholder p.name)
        (encodeURIComponentL (jsToString (pGet args p.name)).data)
        (renderT (A ++ Seg.ph p.name :: B)) =
        renderT A ++ (encodeURIComponentL (jsToString (pGet args p.name)).data ++
          renderT B) := by
      rw [hrender,
        rf_skip_render p.name _ A (placeholder p.name ++ renderT B)
          (fun s hs => hlits s (List.mem_append_left _ hs))
          (fun m hm =>
            ⟨fun he => hnotinA (he ▸ hm),
             (hnames m (hphn.symm ▸ List.mem_append_left _ hm)).1,
             (hnames m (hphn.symm ▸ List.mem_append_left _ hm)).2⟩)
          hbrace.2,
        rf_exact (placeholder p.name) _ (renderT B) (by simp [placeholder])]
    -- the substituted template, with the placeholder replaced by a literal
    have hsegs' : renderT (A ++
        Seg.lit (encodeURIComponent (jsToString (pGet args p.name))) :: B) =
        renderT A ++ (encodeURIComponentL (jsToString (pGet args p.name)).data ++
          renderT B) := by
      rw [renderT_append, renderT_cons, renderSeg]
      rfl
    have hphn' : phNames (A ++
        Seg.lit (encodeURIComponent (jsToString (pGet args p.name))) :: B) =
        phNames A ++ phNames B := by
      rw [phNames_append, phNames_cons_lit]
    -- invariants for the smaller template
    have hlits' : ∀ s, Seg.lit s ∈ A ++
        Seg.lit (encodeURIComponent (jsToString (pGet args p.name))) :: B →
        '{' ∉ s.data := by
      intro s hs
      rcases List.mem_append.mp hs with h | h
      · exact hlits s (List.mem_append_left _ h)
      · rcases List.mem_cons.mp h with he | h'
        · obtain rfl : s = encodeURIComponent (jsToString (pGet args p.name)) := by
            injection he
          exact encode_no_brace _
        · exact hlits s (List.mem_append_right _ (List.mem_cons_of_mem _ h'))
    have hnames' : ∀ n ∈ phNames (A ++
        Seg.lit (encodeURIComponent (jsToString (pGet args p.name))) :: B),
        '{' ∉ n.data ∧ '}' ∉ n.data := by
      intro n hn
      rw [hphn'] at hn
      rcases List.mem_append.mp hn with h | h
      · exact hnames n (hphn.symm ▸ List.mem_append_left _ h)
      · exact hnames n (hphn.symm ▸ List.mem_append_right _ (List.mem_cons_of_mem _ h))
    have hnodup'' : (phNames (A ++
        Seg.lit (encodeURIComponent (jsToString (pGet args p.name))) :: B)).Nodup := by
      rw [hphn']
      exact (List.nodup_cons.mp hnodup').2
    have hperm' : List.Perm (rest.map (·.name)) (phNames (A ++
        Seg.lit (encodeURIComponent (jsToString (pGet args p.name))) :: B)) := by
      rw [hphn']
      have h1 : List.Perm (p.name :: rest.map (·.name))
          (phNames A ++ p.name :: phNames B) := by
        rw [← hphn]; exact hperm
      exact (h1.trans List.perm_middle).cons_inv
    have htruthy' : ∀ q ∈ rest, truthy (pGet args q.name) = true :=
      fun q hq => htruthy q (List.mem_cons_of_mem _ hq)
    -- take the loop one step and use the induction hypothesis
    rw [pppLoop, if_pos htr, hreplace, ← hsegs',
      ih _ args (pDelete rem p.name) hlits' hnames' hnodup'' hperm' htruthy']
    -- the two substituted templates render identically, and the deletions agree
    have hsubst : substTemplate args (A ++
        Seg.lit (encodeURIComponent (jsToString (pGet args p.name))) :: B) =
        substTemplate args (A ++ Seg.ph p.name :: B) := by
      rw [substTemplate_append, substTemplate_append]
      rfl
    rw [hsubst]
    rfl

/-! ## C3 -/

/-- C3: for a URL template with distinct brace-free placeholders, an
operation declaring exactly those names as path-located parameters, and
an argument mapping supplying a truthy value for each,
`processPathParameters` succeeds, returns the template with *every*
placeholder `\x7bname\x7d` replaced by the percent-encoded stringified
argument value (the simultaneous substitution `substTemplate`), and
returns the remaining mapping equal to the input with each substituted
key removed and all other entries kept unchanged. -/
theorem c3_path_substitution (segs : List Seg) (op : Operation) (args : Params)
    (hlits : ∀ s, Seg.lit s ∈ segs → '{' ∉ s.data)
    (hnames : ∀ n ∈ phNames segs, '{' ∉ n.data ∧ '}' ∉ n.data)
    (hnodup : (phNames segs).Nodup)
    (hperm : List.Perm ((paramsIn op "path").map (·.name)) (phNames segs))
    (htruthy : ∀ p ∈ paramsIn op "path", truthy (pGet args p.name) = true) :
    processPathParameters (String.mk (renderT segs)) op args =
      .ok (String.mk (renderT (substTemplate args segs)),
        args.filter (fun kv => kv.1 ∉ (paramsIn op "path").map (·.name))) := by
  rw [processPathParameters,
    show (String.mk (renderT segs)).data = renderT segs from rfl,
    pppLoop_subst (paramsIn op "path") segs args args hlits hnames hnodup hperm htruthy,
    removeKeys_eq_filter]
  rfl

/-- Witness for C3 at the repository's own test vector:
`/v3/\x7bdomain_name\x7d/messages` with `domain_name = example.com` and an
unrelated `to` argument. -/
theorem c3_path_substitution_witness :
    String.mk (renderT [Seg.lit "/v3/", Seg.ph "domain_name", Seg.lit "/messages"]) =
      "/v3/{domain_name}/messages" ∧
    processPathParameters
      (String.mk (renderT [Seg.lit "/v3/", Seg.ph "domain_name", Seg.lit "/messages"]))
      ⟨some [⟨"domain_name", "path", true⟩]⟩
      [("domain_name", JValue.vStr "example.com"),
       ("to", JValue.vStr "test@example.com")] =
      .ok (String.mk (renderT (substTemplate
          [("domain_name", JValue.vStr "example.com"),
           ("to", JValue.vStr "test@example.com")]
          [Seg.lit "/v3/", Seg.ph "domain_name", Seg.lit "/messages"])),
        List.filter
          (fun kv => kv.1 ∉ (paramsIn ⟨some [⟨"domain_name", "path", true⟩]⟩
            "path").map (·.name))
          [("domain_name", JValue.vStr "example.com"),
           ("to", JValue.vStr "test@example.com")]) ∧
    String.mk (renderT (substTemplate
        [("domain_name", JValue.vStr "example.com"),
         ("to", JValue.vStr "test@example.com")]
        [Seg.lit "/v3/", Seg.ph "domain_name", Seg.lit "/messages"])) =
      "/v3/example.com/messages" := by
  refine ⟨rfl, ?_, rfl⟩
  exact c3_path_substitution
    [Seg.lit "/v3/", Seg.ph "domain_name", Seg.lit "/messages"]
    ⟨some [⟨"domain_name", "path", true⟩]⟩
    [("domain_name", JValue.vStr "example.com"),
     ("to", JValue.vStr "test@example.com")]
    (by intro s hs
        simp only [List.mem_cons, List.not_mem_nil, or_false] at hs
        rcases hs with h | h | h
        · injection h with h; subst h; decide
        · exact Seg.noConfusion h
        · injection h with h; subst h; decide)
    (by decide) (by decide) (List.Perm.refl _) (by decide)

/-! ## C1 -/

/-! ## C1 -/

/-- C1: the registered call handler never lets a failure escape: it is a
total function of the invocation and the network outcome, and every
failure — a throw from path substitution, a network error, a non-2xx
remote status, or a JSON parse failure — produces a structured text
result whose text begins with `Error: ` (part 1); moreover every result
is either such an error text or the success text for the request's
parsed payload (part 2), so no invocation can terminate the process. -/
theorem c1_call_never_raises (method path : String) (op : Operation) (params : Params)
    (outcome : HttpOutcome) :
    (((∃ e, processPathParameters path op params = .error e) ∨
        (∃ m, outcome = .networkError m) ∨
        (∃ st bd em, outcome = .response st bd (.error em)) ∨
        (∃ st bd v, outcome = .response st bd (.ok v) ∧ (st < 200 ∨ 300 ≤ st))) →
      ("Error: ".data).isPrefixOf (toolCallText method path op params outcome).data = true) ∧
    (("Error: ".data).isPrefixOf (toolCallText method path op params outcome).data = true ∨
      ∃ ap rem v, processPathParameters path op params = .ok (ap, rem) ∧
        makeMailgunRequest (jsToUpper method)
          (appendQueryString ap (separateParameters rem op method).1)
          (if jsToUpper method = "GET" then none
            else some (separateParameters rem op method).2) outcome = .ok v ∧
        toolCallText method path op params outcome =
          successText (jsToUpper method)
            (appendQueryString ap (separateParameters rem op method).1) v) := by
  have hdich : ("Error: ".data).isPrefixOf
        (toolCallText method path op params outcome).data = true ∨
      ∃ ap rem v, processPathParameters path op params = .ok (ap, rem) ∧
        makeMailgunRequest (jsToUpper method)
          (appendQueryString ap (separateParameters rem op method).1)
          (if jsToUpper method = "GET" then none
            else some (separateParameters rem op method).2) outcome = .ok v ∧
        toolCallText method path op params outcome =
          successText (jsToUpper method)
            (appendQueryString ap (separateParameters rem op method).1) v := by
    cases hppp : processPathParameters path op params with
    | error e =>
      left
      simp only [toolCallText, hppp]
      exact errorText_starts_error _
    | ok pr =>
      obtain ⟨ap, rem⟩ := pr
      cases hreq : makeMailgunRequest (jsToUpper method)
          (appendQueryString ap (separateParameters rem op method).1)
          (if jsToUpper method = "GET" then none
            else some (separateParameters rem op method).2) outcome with
      | error e =>
        left
        simp only [toolCallText, hppp]
        rw [hreq]
        exact errorText_starts_error _
      | ok v =>
        right
        refine ⟨ap, rem, v, rfl, hreq, ?_⟩
        simp only [toolCallText, hppp]
        rw [hreq]
  refine ⟨?_, hdich⟩
  intro hfail
  rcases hdich with hpre | ⟨ap, rem, v, hppp, hreq, _⟩
  · exact hpre
  · exfalso
    rcases hfail with ⟨e, he⟩ | ⟨m, hm⟩ | ⟨st, bd, em, ho⟩ | ⟨st, bd, w, ho, hst⟩
    · rw [hppp] at he; cases he
    · subst hm; simp [makeMailgunRequest] at hreq
    · subst ho; simp [makeMailgunRequest] at hreq
    · subst ho
      by_cases hc : (200 ≤ st && st < 300) = true
      · simp only [Bool.and_eq_true, decide_eq_true_eq] at hc
        omega
      · simp only [makeMailgunRequest, if_neg hc] at hreq
        cases hreq

/-- Witness for C1 at a non-2xx remote status. -/
theorem c1_call_never_raises_witness :
    ("Error: ".data).isPrefixOf
      (toolCallText "GET" "/v3/routes" ⟨none⟩ []
        (.response 404 "not found" (.ok (.obj [])))).data = true :=
  (c1_call_never_raises "GET" "/v3/routes" ⟨none⟩ []
    (.response 404 "not found" (.ok (.obj [])))).1
    (.inr (.inr (.inr ⟨404, "not found", .obj [], rfl, by omega⟩)))

/-! ## C6 -/

/-- C6 counterexample: a string schema with an `enum` constraint and a
`description` translates to a closed-set validator that carries *no*
description — `z.enum(schema.enum)` is returned without `.describe` —
so the claim that both forms carry the fragment's description fails. -/
theorem c6_counterexample :
    openapiToZodF 1
      (.obj [("type", .str "string"), ("enum", .arr [.str "yes", .str "no"]),
             ("format", .str "email"), ("description", .str "A test desc")]) (.obj []) =
      some (.zEnum (.arr [.str "yes", .str "no"]) none) ∧
    (openapiToZodF 1
      (.obj [("type", .str "string"), ("enum", .arr [.str "yes", .str "no"]),
             ("format", .str "email"), ("description", .str "A test desc")])
      (.obj [])).map Zod.descOf ≠ some (some "A test desc") :=
  ⟨rfl, fun h => by
    rw [show openapiToZodF 1
      (.obj [("type", .str "string"), ("enum", .arr [.str "yes", .str "no"]),
             ("format", .str "email"), ("description", .str "A test desc")]) (.obj []) =
      some (.zEnum (.arr [.str "yes", .str "no"]) none) from rfl] at h
    simp [Zod.descOf] at h⟩

/-- C6 amended: for a non-reference string schema fragment, a truthy
`enum` constraint takes precedence over every format hint and yields a
closed-set validator over exactly the `enum` value, carrying *no*
description; without an `enum`, the plain string validator carries the
fragment's description (and its email flag tracks `format === 'email'`). -/
theorem c6_string_enum_translation (fields : List (String × JSON)) (spec e : JSON)
    (fuel : Nat) (href : jsGetTruthy (.obj fields) "$ref" = none)
    (hty : jsGet (.obj fields) "type" = some (.str "string")) :
    (jsGetTruthy (.obj fields) "enum" = some e →
      openapiToZodF (fuel + 1) (.obj fields) spec = some (.zEnum e none)) ∧
    (jsGetTruthy (.obj fields) "enum" = none →
      openapiToZodF (fuel + 1) (.obj fields) spec =
        some (.zString
          (match jsGet (.obj fields) "format" with
           | some (.str "email") => true
           | _ => false)
          (some (descOrEmpty (.obj fields))))) := by
  constructor <;> intro he <;>
    simp only [openapiToZodF, show jsTruthy (JSON.obj fields) = true from rfl,
      Bool.not_true, if_false, href, zodSwitch, hty, he] <;>
    rw [if_neg Bool.false_ne_true]

/-- Witness for C6's amended statement. -/
theorem c6_string_enum_translation_witness :
    openapiToZodF 1
      (.obj [("type", .str "string"), ("enum", .arr [.str "yes", .str "no"]),
             ("description", .str "d")]) (.obj []) =
      some (.zEnum (.arr [.str "yes", .str "no"]) none) ∧
    openapiToZodF 1
      (.obj [("type", .str "string"), ("description", .str "A test string")]) (.obj []) =
      some (.zString false (some "A test string")) := by
  constructor
  · exact (c6_string_enum_translation
      [("type", .str "string"), ("enum", .arr [.str "yes", .str "no"]),
       ("description", .str "d")] (.obj []) (.arr [.str "yes", .str "no"]) 0
      (by rfl) (by rfl)).1 (by rfl)
  · exact (c6_string_enum_translation
      [("type", .str "string"), ("description", .str "A test string")] (.obj [])
      .null 0 (by rfl) (by rfl)).2 (by rfl)

/-! ## C9 -/

/-- A truthiness-checked walk that reaches `cur` and then fails on
`seg` makes the `$ref` loop fail at exactly `seg`. -/
theorem refWalk_error_of {spec cur : JSON} {pre : List String} (seg : String)
    (post : List String) (hw : TruthyWalk spec pre cur)
    (hfail : jsGetTruthy cur seg = none) :
    refWalk spec (pre ++ seg :: post) = .error seg := by
  revert hfail
  induction hw with
  | nil doc =>
    intro hfail
    by_cases ht : jsTruthy doc = true
    · rw [List.nil_append, refWalk, if_pos ht, hfail]
    · rw [List.nil_append, refWalk, if_neg ht]
  | cons htr hget _ ih =>
    intro hfail
    rw [List.cons_append, refWalk, if_pos htr, hget]
    simpa using ih hfail

/-- C9 counterexample: the pointer `#/x/EventSeverityType/y/z` contains
the literal segment `EventSeverityType`, fails to resolve on the empty
document, and still translates to the permissive accept-anything
validator, not the special-cased two-value enum — the special case
triggers only when the *failing* segment is `EventSeverityType` or the
pointer *ends* with it. -/
theorem c9_counterexample :
    openapiToZodF 1 (.obj [("$ref", .str "#/x/EventSeverityType/y/z")]) (.obj []) =
      some (.zAny (some "Failed reference: #/x/EventSeverityType/y/z")) ∧
    "EventSeverityType" ∈
      (splitOnCharL '/' (("#/x/EventSeverityType/y/z" : String).data.drop 2)).map
        String.mk ∧
    openapiToZodF 1 (.obj [("$ref", .str "#/x/EventSeverityType/y/z")]) (.obj []) ≠
      some ((Zod.zEnum (.arr [.str "temporary", .str "permanent"]) none).describe
        "Filter by event severity") :=
  ⟨rfl, by decide, fun h => by
    rw [show openapiToZodF 1 (.obj [("$ref", .str "#/x/EventSeverityType/y/z")])
      (.obj []) = some (.zAny (some "Failed reference: #/x/EventSeverityType/y/z"))
      from rfl] at h
    simp [Zod.describe] at h⟩

/-- C9 amended: for every `$ref` schema whose internal `#/` pointer
fails to resolve — the truthiness-checked walk fails at segment `seg` —
the translator does not raise: it returns the two-value
`temporary`/`permanent` enum (described `Filter by event severity`)
exactly when the *failing segment* equals `EventSeverityType` or the
pointer *ends with* `EventSeverityType`, and otherwise the permissive
accept-anything validator described `Failed reference: <pointer>`. -/
theorem c9_unresolved_ref_translation (fields : List (String × JSON)) (spec : JSON)
    (ref : String) (fuel : Nat) (pre : List String) (seg : String)
    (post : List String) (cur : JSON)
    (href : jsGetTruthy (.obj fields) "$ref" = some (.str ref))
    (hpfx : (['#', '/']).isPrefixOf ref.data = true)
    (hsplit : (splitOnCharL '/' (ref.data.drop 2)).map String.mk = pre ++ seg :: post)
    (hw : TruthyWalk spec pre cur)
    (hfail : jsGetTruthy cur seg = none) :
    openapiToZodF (fuel + 1) (.obj fields) spec =
      some (if seg = "EventSeverityType" ||
          ("EventSeverityType".data).isSuffixOf ref.data
        then (Zod.zEnum (.arr [.str "temporary", .str "permanent"]) none).describe
          "Filter by event severity"
        else (Zod.zAny none).describe ("Failed reference: " ++ ref)) := by
  have hrw : refWalk spec ((splitOnCharL '/' (ref.data.drop 2)).map String.mk) =
      .error seg := by
    rw [hsplit]; exact refWalk_error_of seg post hw hfail
  simp only [openapiToZodF, show jsTruthy (JSON.obj fields) = true from rfl,
    Bool.not_true, if_false, href, if_pos hpfx, hrw]
  rw [if_neg Bool.false_ne_true, apply_ite some]

/-- Witness for C9's amended statement: the special case (pointer ends
with `EventSeverityType`) and the generic diagnostic fallback. -/
theorem c9_unresolved_ref_translation_witness :
    openapiToZodF 1 (.obj [("$ref", .str "#/components/schemas/EventSeverityType")])
      (.obj []) =
      some (.zEnum (.arr [.str "temporary", .str "permanent"])
        (some "Filter by event severity")) ∧
    openapiToZodF 1 (.obj [("$ref", .str "#/x/EventSeverityType/y/z")]) (.obj []) =
      some (.zAny (some "Failed reference: #/x/EventSeverityType/y/z")) := by
  constructor
  · exact c9_unresolved_ref_translation
      [("$ref", .str "#/components/schemas/EventSeverityType")] (.obj [])
      "#/components/schemas/EventSeverityType" 0 [] "components"
      ["schemas", "EventSeverityType"] (.obj []) (by rfl) (by rfl) (by rfl)
      (TruthyWalk.nil _) (by rfl)
  · exact c9_unresolved_ref_translation
      [("$ref", .str "#/x/EventSeverityType/y/z")] (.obj [])
      "#/x/EventSeverityType/y/z" 0 [] "x" ["EventSeverityType", "y", "z"]
      (.obj []) (by rfl) (by rfl) (by rfl) (TruthyWalk.nil _) (by rfl)

/-! ## C5 -/

/-- The query-string loop keeps exactly the entries whose value is
neither `undefined` nor `null`, stringified, in order. -/
theorem qsEntries_eq_filterMap (q : Params) :
    qsEntries q = q.filterMap fun kv =>
      match kv.2 with
      | .vUndefined => none
      | .vNull => none
      | v => some (kv.1, jsToString v) := by
  induction q with
  | nil => rfl
  | cons kv rest ih =>
    obtain ⟨k, v⟩ := kv
    cases v <;> simp [qsEntries, List.filterMap_cons, ih]

/-- C5: `appendQueryString` returns the path unchanged for an empty
query mapping, and otherwise returns `path?` followed by the
URL-encoded `key=value&…` serialization of the entries, each value
stringified, skipping entries whose value is `undefined` or `null`. -/
theorem c5_append_query_string (path : String) (q : Params) :
    (q = [] → appendQueryString path q = path) ∧
    (q ≠ [] → appendQueryString path q =
      path ++ "?" ++ urlSearchParamsToString (q.filterMap fun kv =>
        match kv.2 with
        | .vUndefined => none
        | .vNull => none
        | v => some (kv.1, jsToString v))) := by
  constructor
  · rintro rfl; rfl
  · intro h
    rw [appendQueryString, if_neg (by simpa using h), qsEntries_eq_filterMap]

/-! ## Splitting and joining pointer segments -/

theorem split_no_sep (sep : Char) (x : List Char) (h : sep ∉ x) :
    splitOnCharL sep x = [x] := by
  induction x with
  | nil => rfl
  | cons c rest ih =>
    have hc : c ≠ sep := fun hc => h (hc ▸ List.mem_cons_self _ _)
    have hr : sep ∉ rest := fun hr => h (List.mem_cons_of_mem _ hr)
    rw [splitOnCharL]
    simp only [if_neg hc, ih hr]

theorem split_append_sep (sep : Char) (x t : List Char) (h : sep ∉ x) :
    splitOnCharL sep (x ++ sep :: t) = x :: splitOnCharL sep t := by
  induction x with
  | nil => simp [splitOnCharL]
  | cons c rest ih =>
    have hc : c ≠ sep := fun hc => h (hc ▸ List.mem_cons_self _ _)
    have hr : sep ∉ rest := fun hr => h (List.mem_cons_of_mem _ hr)
    rw [List.cons_append, splitOnCharL]
    simp only [if_neg hc, ih hr]

theorem joinSlash_split (pieces : List (List Char)) (hne : pieces ≠ [])
    (h : ∀ p ∈ pieces, '/' ∉ p) : splitOnCharL '/' (joinSlash pieces) = pieces := by
  induction pieces with
  | nil => cases hne rfl
  | cons x rest ih =>
    cases rest with
    | nil =>
      rw [joinSlash]
      exact split_no_sep '/' x (h x (List.mem_cons_self _ _))
    | cons y rest' =>
      rw [joinSlash, split_append_sep '/' x _ (h x (List.mem_cons_self _ _))]
      rw [ih (by simp) (fun p hp => h p (List.mem_cons_of_mem _ hp))]

theorem mkRef_data (segs : List String) :
    (mkRef segs).data = '#' :: '/' :: joinSlash (segs.map String.data) := rfl

theorem strip_hash_slash (rest : List Char) :
    replaceFirstL ['#', '/'] [] ('#' :: '/' :: rest) = rest := by
  simp [replaceFirstL, List.isPrefixOf]

theorem map_mk_map_data (l : List String) : (l.map String.data).map String.mk = l := by
  induction l with
  | nil => rfl
  | cons s t ih => simp only [List.map_cons, ih]

/-- On a well-formed pointer built from slash-free segments,
`resolveReference` is the fold of `refStep` (property access with
`TypeError` on `undefined`/`null`) over the segments. -/
theorem resolveReference_mkRef (segs : List String) (doc : JSON) (hne : segs ≠ [])
    (hs : ∀ s ∈ segs, '/' ∉ s.data) :
    resolveReference (mkRef segs) doc = segs.foldl refStep (.ok (some doc)) := by
  rw [resolveReference, mkRef_data, strip_hash_slash,
    joinSlash_split (segs.map String.data) (by simpa using hne)
      (by intro p hp
          obtain ⟨s, hsmem, rfl⟩ := List.mem_map.mp hp
          exact hs s hsmem),
    map_mk_map_data]

theorem foldl_refStep_error (l : List String) (e : String) :
    l.foldl refStep (.error e) = .error e := by
  induction l with
  | nil => rfl
  | cons s rest ih => exact ih

theorem refStep_ok (doc : JSON) (s : String) (h : doc ≠ .null) :
    refStep (.ok (some doc)) s = .ok (jsGet doc s) := by
  cases doc <;> first | rfl | exact absurd rfl h

theorem walk_foldl {doc v : JSON} {segs : List String} (hw : Walk doc segs v) :
    segs.foldl refStep (.ok (some doc)) = .ok (some v) := by
  induction hw with
  | nil => rfl
  | @cons doc u v s rest hjs _ ih =>
    have hnn : doc ≠ .null := by
      intro h; subst h; rw [show jsGet JSON.null s = none from rfl] at hjs; cases hjs
    rw [List.foldl_cons, refStep_ok doc s hnn, hjs]
    exact ih

/-! ## C8 -/

/-- C8 counterexample: on the empty document, the pointer `#/a/b`
dangles at its first segment, and `resolveReference` raises a
`TypeError` instead of returning an undefined value. -/
theorem c8_counterexample :
    resolveReference "#/a/b" (.obj []) =
      .error "TypeError: Cannot read properties of undefined (reading 'b')" ∧
    resolveReference "#/a/b" (.obj []) ≠ .ok none :=
  ⟨rfl, fun h => by
    rw [show resolveReference "#/a/b" (.obj []) =
      .error "TypeError: Cannot read properties of undefined (reading 'b')" from rfl] at h
    exact Except.noConfusion h⟩

/-- C8 amended: `resolveReference` walks the document by successive key
lookups along the segments after the leading `#/` marker and returns the
exact fragment found (part 1; a two-level nested pointer resolves
through two levels of lookups). A pointer dangling only at its final
segment yields an undefined value (part 2), but a pointer dangling
before its final segment — or one whose walk reaches `null` — raises a
`TypeError` naming the next segment rather than returning undefined
(part 3); registration-time callers catch the raise. -/
theorem c8_resolve_reference :
    (∀ (doc v : JSON) (segs : List String), segs ≠ [] →
      (∀ s ∈ segs, '/' ∉ s.data) → Walk doc segs v →
      resolveReference (mkRef segs) doc = .ok (some v)) ∧
    (∀ (doc u : JSON) (pre : List String) (last : String),
      (∀ s ∈ pre, '/' ∉ s.data) → '/' ∉ last.data → Walk doc pre u →
      u ≠ .null → jsGet u last = none →
      resolveReference (mkRef (pre ++ [last])) doc = .ok none) ∧
    (∀ (doc u : JSON) (pre : List String) (s next : String) (post : List String),
      (∀ x ∈ pre, '/' ∉ x.data) → '/' ∉ s.data → '/' ∉ next.data →
      (∀ x ∈ post, '/' ∉ x.data) → Walk doc pre u → u ≠ .null → jsGet u s = none →
      resolveReference (mkRef (pre ++ s :: next :: post)) doc =
        .error ("TypeError: Cannot read properties of undefined (reading '" ++
          next ++ "')")) := by
  refine ⟨?_, ?_, ?_⟩
  · intro doc v segs hne hs hw
    rw [resolveReference_mkRef segs doc hne hs, walk_foldl hw]
  · intro doc u pre last hpre hlast hw hnn hget
    rw [resolveReference_mkRef (pre ++ [last]) doc (by simp)
      (by intro s hs
          rcases List.mem_append.mp hs with h | h
          · exact hpre s h
          · rw [List.mem_singleton.mp h]; exact hlast)]
    rw [List.foldl_append, walk_foldl hw, List.foldl_cons, refStep_ok u last hnn, hget]
    rfl
  · intro doc u pre s next post hpre hsx hnext hpost hw hnn hget
    rw [resolveReference_mkRef (pre ++ s :: next :: post) doc (by simp)
      (by intro x hx
          rcases List.mem_append.mp hx with h | h
          · exact hpre x h
          · rcases List.mem_cons.mp h with rfl | h'
            · exact hsx
            · rcases List.mem_cons.mp h' with rfl | h''
              · exact hnext
              · exact hpost x h'')]
    rw [List.foldl_append, walk_foldl hw, List.foldl_cons, refStep_ok u s hnn, hget,
      List.foldl_cons]
    exact foldl_refStep_error post _

/-- Witness for C8's amended statement: the repository's own nested-test
document, a final-segment miss, and an early miss. -/
theorem c8_resolve_reference_witness :
    mkRef ["components", "schemas", "Parent", "NestedType"] =
      "#/components/schemas/Parent/NestedType" ∧
    resolveReference "#/components/schemas/Parent/NestedType"
      (.obj [("components", .obj [("schemas", .obj [("Parent",
        .obj [("NestedType", .obj [("type", .str "number"), ("minimum", .num 0)])])])])]) =
      .ok (some (.obj [("type", .str "number"), ("minimum", .num 0)])) ∧
    resolveReference "#/a" (.obj []) = .ok none ∧
    resolveReference "#/a/b" (.obj []) =
      .error "TypeError: Cannot read properties of undefined (reading 'b')" := by
  refine ⟨rfl, ?_, ?_, ?_⟩
  · exact c8_resolve_reference.1
      (.obj [("components", .obj [("schemas", .obj [("Parent",
        .obj [("NestedType", .obj [("type", .str "number"), ("minimum", .num 0)])])])])])
      (.obj [("type", .str "number"), ("minimum", .num 0)])
      ["components", "schemas", "Parent", "NestedType"] (by simp) (by decide)
      (Walk.cons (by rfl) (Walk.cons (by rfl) (Walk.cons (by rfl)
        (Walk.cons (by rfl) (Walk.nil _)))))
  · exact c8_resolve_reference.2.1 (.obj []) (.obj []) [] "a" (by simp) (by decide)
      (Walk.nil _) (by simp) (by rfl)
  · exact c8_resolve_reference.2.2 (.obj []) (.obj []) [] "a" "b" [] (by simp)
      (by decide) (by decide) (by simp) (Walk.nil _) (by simp) (by rfl)

/-- Witness for C5 at the repository's own test vectors. -/
theorem c5_append_query_string_witness :
    appendQueryString "/v3/domains" [] = "/v3/domains" ∧
    appendQueryString "/v3/domains" [("limit", JValue.vNum 10), ("skip", JValue.vNum 0)] =
      "/v3/domains?limit=10&skip=0" := by
  constructor
  · exact (c5_append_query_string "/v3/domains" []).1 rfl
  · rw [(c5_append_query_string "/v3/domains"
      [("limit", JValue.vNum 10), ("skip", JValue.vNum 0)]).2 (by simp)]
    rfl

